import Mathlib

/-!
Verification development for the `acs_student_attendance` log-parsing and
attendance-matching pipeline.  The definitions below are a shallow embedding
of `log_parser.py` and `analysis.py`: dates are proleptic-Gregorian triples
with Python's ordinal/ISO-calendar arithmetic, times of day are seconds since
midnight, the log-line regular expression is implemented as an explicit
backtracking matcher with the same greedy/lazy structure, and the aggregation
loop of `StudentAttendanceAnalysis.analyze` is a fold over the transformed
event stream in which an out-of-range attendance-list assignment is modelled
as `none` (Python's `IndexError`).
-/

set_option synthInstance.maxSize 512

namespace AcsAttendance

/-! ## Calendar arithmetic (embedding of Python `datetime.date`) -/

/-- A calendar date, as Python's `datetime.date` (proleptic Gregorian). -/
structure Date where
  year : Nat
  month : Nat
  day : Nat
deriving DecidableEq

/-- Gregorian leap year, as Python `calendar.isleap`. -/
def isLeap (y : Nat) : Bool :=
  y % 4 == 0 && (!(y % 100 == 0) || y % 400 == 0)

/-- Days in a month, as CPython's `_days_in_month`. -/
def daysInMonth (y m : Nat) : Nat :=
  if m = 2 then (if isLeap y then 29 else 28)
  else if m = 4 ∨ m = 6 ∨ m = 9 ∨ m = 11 then 30
  else 31

/-- Days in the year before the first of month `m`, as CPython's `_days_before_month`. -/
def daysBeforeMonth (y m : Nat) : Nat :=
  (List.range (m - 1)).foldl (fun acc i => acc + daysInMonth y (i + 1)) 0

/-- Days before January 1st of year `y`, as CPython's `_days_before_year`. -/
def daysBeforeYear (y : Nat) : Nat :=
  (y - 1) * 365 + (y - 1) / 4 - (y - 1) / 100 + (y - 1) / 400

/-- Python `date.toordinal()`: day 1 is 0001-01-01. -/
def toordinal (d : Date) : Nat :=
  daysBeforeYear d.year + daysBeforeMonth d.year d.month + d.day

/-- Python `date.isoweekday()`: Monday = 1 .. Sunday = 7
(`self.toordinal() % 7 or 7`). -/
def isoweekday (d : Date) : Nat :=
  let r := toordinal d % 7
  if r = 0 then 7 else r

/-- CPython `_isoweek1monday`: ordinal of the Monday starting ISO week 1 of `y`. -/
def isoweek1monday (y : Nat) : Int :=
  let firstday : Int := (toordinal ⟨y, 1, 1⟩ : Nat)
  let firstweekday := (firstday + 6) % 7
  let week1monday := firstday - firstweekday
  if firstweekday > 3 then week1monday + 7 else week1monday

/-- The (ISO year, ISO week number) part of Python `date.isocalendar()`. -/
def isocalendarYW (d : Date) : Nat × Nat :=
  let today : Int := (toordinal d : Nat)
  let week0 := Int.ediv (today - isoweek1monday d.year) 7
  if week0 < 0 then
    let y := d.year - 1
    let week := Int.ediv (today - isoweek1monday y) 7
    (y, (week + 1).toNat)
  else if week0 ≥ 52 && today ≥ isoweek1monday (d.year + 1) then
    (d.year + 1, 1)
  else
    (d.year, (week0 + 1).toNat)

/-- Embeds `analysis.weeknumber`: `dt.isocalendar()[1]`, the ISO week number alone. -/
def weeknumber (d : Date) : Nat :=
  (isocalendarYW d).2

/-- Embeds `start += timedelta(days=7)` on a valid date (7 < 28 so at most one
month rollover). -/
def addDays7 (d : Date) : Date :=
  let dim := daysInMonth d.year d.month
  if d.day + 7 ≤ dim then ⟨d.year, d.month, d.day + 7⟩
  else if d.month = 12 then ⟨d.year + 1, 1, d.day + 7 - dim⟩
  else ⟨d.year, d.month + 1, d.day + 7 - dim⟩

/-- Python `date.__le__`: lexicographic on (year, month, day). -/
def dateLeB (a b : Date) : Bool :=
  decide (a.year < b.year ∨ (a.year = b.year ∧
    (a.month < b.month ∨ (a.month = b.month ∧ a.day ≤ b.day))))

/-! ## Python tuple order on (year, weeknumber) pairs, and `bisect_left` -/

/-- Python tuple `<` on `(year, weeknumber)` pairs. -/
def pairLt (p q : Nat × Nat) : Bool :=
  decide (p.1 < q.1 ∨ (p.1 = q.1 ∧ p.2 < q.2))

/-- Python tuple `<=` on `(year, weeknumber)` pairs. -/
def pairLe (p q : Nat × Nat) : Bool :=
  decide (p.1 < q.1 ∨ (p.1 = q.1 ∧ p.2 ≤ q.2))

/-- The list is non-decreasing in Python tuple order (consecutive `<=`). -/
def sortedLe : List (Nat × Nat) → Bool
  | [] => true
  | [_] => true
  | p :: q :: rest => pairLe p q && sortedLe (q :: rest)

/-- The loop of CPython `bisect.bisect_left` (fuel-indexed embedding of the
`while lo < hi` loop; `a.length` fuel always suffices since `hi - lo`
strictly decreases). -/
def bisectLoop (a : List (Nat × Nat)) (x : Nat × Nat) : Nat → Nat → Nat → Nat
  | 0, lo, _ => lo
  | fuel + 1, lo, hi =>
    if lo < hi then
      if pairLt (a.getD ((lo + hi) / 2) (0, 0)) x then
        bisectLoop a x fuel ((lo + hi) / 2 + 1) hi
      else
        bisectLoop a x fuel lo ((lo + hi) / 2)
    else lo

/-- Embeds `bisect.bisect_left(a, x)` with `lo = 0`, `hi = len(a)`. -/
def bisect_left (a : List (Nat × Nat)) (x : Nat × Nat) : Nat :=
  bisectLoop a x a.length 0 a.length

/-- Modelled from the spec: the index of the first entry of the Week Index
that is greater than or equal to `x` (the length of the list when there is
none).  This is the behaviour the spec ascribes to the lower-bound lookup. -/
def firstIndexGE (a : List (Nat × Nat)) (x : Nat × Nat) : Nat :=
  match a with
  | [] => 0
  | p :: rest => if pairLe x p then 0 else firstIndexGE rest x + 1

/-! ## Semester configuration (the structure handed to `StudentAttendanceAnalysis`) -/

/-- One course of `semester_config['courses']`, after the constructor has
converted weekday names to ISO weekday numbers (via `_weekday_to_int`) and
the `"HH:MM-HH:MM"` strings of `weekly_lab_schedule` to time values
(seconds since midnight). -/
structure CourseCfg where
  name : String
  teacher : String
  weekly_lab_schedule : List (Nat × List (Nat × Nat))
deriving DecidableEq

/-- One entry of `semester_config['semester']['schedule_overrides']`. -/
structure Override where
  completed_on : Date
  holiday_date : Date
deriving DecidableEq

/-- The semester configuration consumed by the analysis, with
`student_login_time_spread` in seconds (as the constructor converts it). -/
structure SemesterConfig where
  start_date : Date
  end_date : Date
  courses : List CourseCfg
  schedule_overrides : List Override
  student_login_time_spread : Nat
deriving DecidableEq

/-- Embeds `add_time(time, delta)`: `(datetime.combine(today, time) + delta).time()`,
i.e. time-of-day arithmetic modulo 24 hours (86400 seconds). -/
def addTimeMod (t : Nat) (delta : Int) : Nat :=
  (((t : Int) + delta).emod 86400).toNat

/-- Embeds `expand_term_interval` for a non-zero spread: widen the interval by the
spread on each side, modulo 24 hours. -/
def expand_term_interval (spread : Nat) (term : Nat × Nat) : Nat × Nat :=
  (addTimeMod term.1 (-(spread : Int)), addTimeMod term.2 (spread : Int))

/-- The branch in `weekday_terms`: a zero spread takes the identity fast
path, otherwise every interval is widened by `expand_term_interval`. -/
def expandIfSpread (spread : Nat) (term : Nat × Nat) : Nat × Nat :=
  if spread = 0 then term else expand_term_interval spread term

/-- Embeds `StudentAttendanceAnalysis.weekday_terms`, as the lookup
`weekday_terms.get(weekday, [])`: all `(course_name, start, end)` entries for
the given weekday, gathered from every course in configuration order. -/
def weekday_terms (cfg : SemesterConfig) (wd : Nat) : List (String × Nat × Nat) :=
  cfg.courses.foldl (fun acc c =>
    c.weekly_lab_schedule.foldl (fun acc2 entry =>
      if entry.1 = wd then
        acc2 ++ entry.2.map (fun term =>
          (c.name, expandIfSpread cfg.student_login_time_spread term))
      else acc2) acc) []

/-- The `while start <= end` loop of `semester_weeks`, fuel-indexed (each
iteration advances the ordinal by 7, so `toordinal end + 1 - toordinal start`
fuel always suffices).  Note the entry pairs `start.year` (the calendar
year) with `weeknumber start` (the ISO week number), exactly as the source. -/
def semesterWeeksAux : Nat → Date → Date → List (Nat × Nat)
  | 0, _, _ => []
  | fuel + 1, start, stop =>
    if dateLeB start stop then
      (start.year, weeknumber start) :: semesterWeeksAux fuel (addDays7 start) stop
    else []

/-- Embeds `StudentAttendanceAnalysis.semester_weeks`. -/
def semester_weeks (cfg : SemesterConfig) : List (Nat × Nat) :=
  semesterWeeksAux (toordinal cfg.end_date + 1 - toordinal cfg.start_date)
    cfg.start_date cfg.end_date

/-- Embeds `_init_attendance_list`: `[0] * len(self.semester_weeks)`. -/
def init_attendance_list (cfg : SemesterConfig) : List Nat :=
  List.replicate (semester_weeks cfg).length 0

/-! ## The log-line grammar (`StudentAuthLogParser.log_format_re`)

The pattern is
`(?P<datetime>.+?) 192.168.18.(?P<computer_id>\d{3}) lightdm: pam_unix\(lightdm:session\): session (?P<session_action>[a-z]+) for user\s+(?P<student_id>\S+)\s*(?:by \(uid=\d+\))?$`
matched with `re.match`.  The matcher below realises exactly this pattern:
the lazy `.+?` tries the shortest datetime prefix first; `[a-z]+`, `\s+`,
`\s*` and `\d+` are greedy runs whose following token is disjoint from their
character class, so maximal munch is faithful; `\S+` is greedy with
backtracking over its length; the unescaped dots of `192.168.18.` match any
character except a newline; `$` matches at the end of the string or just
before a final newline. -/

/-- Python 2 `\s`: space, tab, newline, carriage return, form feed, vertical tab. -/
def reIsSpace (c : Char) : Bool :=
  c = ' ' || c = '\t' || c = '\n' || c = '\r' || c = '\x0c' || c = '\x0b'

/-- Python `\d`. -/
def reIsDigit (c : Char) : Bool := '0' ≤ c && c ≤ '9'

/-- Python `[a-z]`. -/
def reIsLower (c : Char) : Bool := 'a' ≤ c && c ≤ 'z'

/-- Consume an exact literal. -/
def dropLiteral : List Char → List Char → Option (List Char)
  | [], s => some s
  | c :: cs, d :: ds => if d = c then dropLiteral cs ds else none
  | _ :: _, [] => none

/-- Consume one exact character. -/
def expectChar (c : Char) : List Char → Option (List Char)
  | d :: rest => if d = c then some rest else none
  | [] => none

/-- The regex `.`: any single character except a newline. -/
def anyNotNl : List Char → Option (List Char)
  | c :: rest => if c = '\n' then none else some rest
  | [] => none

/-- The anchor `$`: end of string, or just before a terminating newline. -/
def endAnchor : List Char → Bool
  | [] => true
  | [c] => c = '\n'
  | _ => false

/-- The optional clause `by \(uid=\d+\)`. -/
def matchByClause (s : List Char) : Option (List Char) :=
  match dropLiteral ("by (uid=".toList) s with
  | none => none
  | some s1 =>
    let ds := s1.takeWhile reIsDigit
    if ds.isEmpty then none
    else expectChar ')' (s1.dropWhile reIsDigit)

/-- The pattern tail `\s*(?:by \(uid=\d+\))?$` after the student id. -/
def matchTail (s : List Char) : Bool :=
  let s1 := s.dropWhile reIsSpace
  match matchByClause s1 with
  | some s2 => endAnchor s2
  | none => endAnchor s1

/-- Greedy backtracking over the length of the `\S+` student-id token:
try the longest draw from `tok` first, giving characters back until the
pattern tail matches. -/
def studentLenSearch (tok rem : List Char) : Nat → Option String
  | 0 => none
  | k + 1 =>
    if matchTail (tok.drop (k + 1) ++ rem) then some (String.mk (tok.take (k + 1)))
    else studentLenSearch tok rem k

/-- Embeds `(?P<student_id>\S+)` followed by the pattern tail. -/
def matchStudent (s : List Char) : Option String :=
  let tok := s.takeWhile (fun c => !reIsSpace c)
  let rem := s.dropWhile (fun c => !reIsSpace c)
  if tok.isEmpty then none else studentLenSearch tok rem tok.length

/-- Embeds `(?P<session_action>[a-z]+) for user\s+` followed by the student id. -/
def matchActionOn (s : List Char) : Option (String × String) :=
  let act := s.takeWhile reIsLower
  let s1 := s.dropWhile reIsLower
  if act.isEmpty then none
  else
    match dropLiteral (" for user".toList) s1 with
    | none => none
    | some s2 =>
      let sp := s2.takeWhile reIsSpace
      if sp.isEmpty then none
      else (matchStudent (s2.dropWhile reIsSpace)).map (fun sid => (String.mk act, sid))

/-- A raw parsed log line: the four named groups of `log_format_re`,
as produced by `match.groupdict()`. -/
structure RawRecord where
  datetime : String
  computer_id : String
  session_action : String
  student_id : String
deriving DecidableEq

/-- The pattern after the lazy datetime group:
` 192.168.18.(?P<computer_id>\d{3}) lightdm: pam_unix\(lightdm:session\): session ...`. -/
def matchAfterDatetime (s : List Char) : Option (String × String × String) :=
  match expectChar ' ' s with
  | none => none
  | some s =>
  match dropLiteral ("192".toList) s with
  | none => none
  | some s =>
  match anyNotNl s with
  | none => none
  | some s =>
  match dropLiteral ("168".toList) s with
  | none => none
  | some s =>
  match anyNotNl s with
  | none => none
  | some s =>
  match dropLiteral ("18".toList) s with
  | none => none
  | some s =>
  match anyNotNl s with
  | none => none
  | some s =>
  match s with
  | d1 :: d2 :: d3 :: s =>
    if reIsDigit d1 && reIsDigit d2 && reIsDigit d3 then
      match expectChar ' ' s with
      | none => none
      | some s =>
      match dropLiteral ("lightdm: pam_unix(lightdm:session): session ".toList) s with
      | none => none
      | some s =>
        (matchActionOn s).map (fun p => (String.mk [d1, d2, d3], p.1, p.2))
    else none
  | _ => none

/-- The lazy `(?P<datetime>.+?)` group: grow the (newline-free, non-empty)
datetime prefix one character at a time, shortest first, until the rest of
the pattern matches the remainder. -/
def scanDatetime (acc : List Char) : List Char → Option RawRecord
  | [] => none
  | c :: rest =>
    if c = '\n' then none
    else
      match matchAfterDatetime rest with
      | some (cid, act, sid) => some ⟨String.mk (acc ++ [c]), cid, act, sid⟩
      | none => scanDatetime (acc ++ [c]) rest

/-- Embeds `log_format_re.match(line)`, returning `groupdict()` on success. -/
def logFormatMatch (line : String) : Option RawRecord :=
  scanDatetime [] line.toList

/-- Python `line[:-1]`: the line with its final character removed. -/
def truncLast (line : String) : String :=
  String.mk line.toList.dropLast

/-- The diagnostic printed for a non-matching line:
`print 'Unknown line found while parsing:', line[:-1]`. -/
def diagMsg (line : String) : String :=
  "Unknown line found while parsing: " ++ truncLast line

/-- Embeds `StudentAuthLogParser._gen_parsed_log_lines`: the parsed records in
order, together with the diagnostics emitted for non-matching lines. -/
def genParsedLogLines : List String → List RawRecord × List String
  | [] => ([], [])
  | line :: rest =>
    let p := genParsedLogLines rest
    match logFormatMatch line with
    | some r => (r :: p.1, p.2)
    | none => (p.1, diagMsg line :: p.2)

/-! ## The transformation pipeline -/

/-- A timestamp: a date plus a time of day in seconds since midnight. -/
structure DateTime where
  date : Date
  time : Nat
deriving DecidableEq

/-- Numeric value of a digit character. -/
def digitVal (c : Char) : Nat := c.toNat - 48

/-- strptime `%m` / `%d` / `%H` / `%M` / `%S`: one or two digits, greedy. -/
def takeTwoDigits : List Char → Option (Nat × List Char)
  | a :: b :: rest =>
    if reIsDigit a then
      if reIsDigit b then some (digitVal a * 10 + digitVal b, rest)
      else some (digitVal a, b :: rest)
    else none
  | [a] => if reIsDigit a then some (digitVal a, []) else none
  | [] => none

/-- strptime `%Y`: exactly four digits. -/
def takeFourDigits : List Char → Option (Nat × List Char)
  | a :: b :: c :: d :: rest =>
    if reIsDigit a && reIsDigit b && reIsDigit c && reIsDigit d then
      some (((digitVal a * 10 + digitVal b) * 10 + digitVal c) * 10 + digitVal d, rest)
    else none
  | _ => none

/-- Embeds `StudentAuthLogParser._parse_datetime`:
`datetime.strptime(s, "%Y-%m-%d %H:%M:%S")`, `none` modelling the fatal
`ValueError` (unparseable value or out-of-range component). -/
def parse_datetime (s : String) : Option DateTime :=
  match takeFourDigits s.toList with
  | none => none
  | some (y, s) =>
  match expectChar '-' s with
  | none => none
  | some s =>
  match takeTwoDigits s with
  | none => none
  | some (mo, s) =>
  match expectChar '-' s with
  | none => none
  | some s =>
  match takeTwoDigits s with
  | none => none
  | some (d, s) =>
  match expectChar ' ' s with
  | none => none
  | some s =>
  match takeTwoDigits s with
  | none => none
  | some (h, s) =>
  match expectChar ':' s with
  | none => none
  | some s =>
  match takeTwoDigits s with
  | none => none
  | some (mi, s) =>
  match expectChar ':' s with
  | none => none
  | some s =>
  match takeTwoDigits s with
  | none => none
  | some (se, s) =>
  if s = [] ∧ 1 ≤ y ∧ 1 ≤ mo ∧ mo ≤ 12 ∧ 1 ≤ d ∧ d ≤ daysInMonth y mo
      ∧ h ≤ 23 ∧ mi ≤ 59 ∧ se ≤ 59 then
    some ⟨⟨y, mo, d⟩, h * 3600 + mi * 60 + se⟩
  else none

/-- A transformed event after the three base pipeline steps: timestamp
parsed, computer id reformatted, student id lowercased. -/
structure Event1 where
  dt : DateTime
  computer_id : String
  session_action : String
  student_id : String
deriving DecidableEq

/-- Python 2 `string.lower`: lowercase every ASCII letter. -/
def strToLower (s : String) : String :=
  String.mk (s.toList.map Char.toLower)

/-- The three base pipeline steps of `StudentAuthLogParser`
(`_transform_datetime_field`, `_transform_computer_id_field`,
`_transform_student_id_field`) applied to one record; `none` is the fatal
strptime failure. -/
def baseTransform (r : RawRecord) : Option Event1 :=
  (parse_datetime r.datetime).map fun dt =>
    ⟨dt, "s" ++ r.computer_id, r.session_action, strToLower r.student_id⟩

/-- Embeds `StudentAttendanceAnalysis._apply_schedule_overrides.inner`: scan the
configured overrides in order; on the first whose `completed_on` equals the
event's calendar date, substitute the override's `holiday_date` keeping the
time of day; otherwise pass the timestamp through unchanged. -/
def apply_schedule_overrides : List Override → DateTime → DateTime
  | [], dt => dt
  | o :: rest, dt =>
    if o.completed_on = dt.date then ⟨o.holiday_date, dt.time⟩
    else apply_schedule_overrides rest dt

/-- A fully transformed event, as left by `_remove_unnecessary_fields` and
`_break_apart_datetime_field`: the student id plus the exploded
`datetime`-derived fields. -/
structure Login where
  student_id : String
  year : Nat
  weeknumber : Nat
  weekday : Nat
  date : Date
  time : Nat
deriving DecidableEq

/-- Embeds `_break_apart_datetime_field` on one record (note `year` is the naive
calendar year `dt.year`, while `weeknumber` is the ISO week number). -/
def toLogin (dt : DateTime) (sid : String) : Login :=
  ⟨sid, dt.date.year, weeknumber dt.date, isoweekday dt.date, dt.date, dt.time⟩

/-- The extra transformation pipeline of `StudentAttendanceAnalysis`
(`_filter_logins`, `_apply_schedule_overrides`, `_remove_unnecessary_fields`,
`_break_apart_datetime_field`) over the base-transformed stream. -/
def extraPipeline (cfg : SemesterConfig) (events : List Event1) : List Login :=
  (events.filter (fun e => e.session_action == "opened")).map
    (fun e => toLogin (apply_schedule_overrides cfg.schedule_overrides e.dt) e.student_id)

/-! ## The attendance aggregator (`StudentAttendanceAnalysis.analyze`) -/

/-- Per-course student attendance: an insertion-ordered association list
modelling `defaultdict(self._init_attendance_list)`. -/
abbrev AttMap := List (String × List Nat)

/-- The whole `student_attendance` mapping, one entry per configured course. -/
abbrev AnalysisState := List (String × AttMap)

/-- Embeds the dict comprehension building one empty map per configured course. -/
def initState (cfg : SemesterConfig) : AnalysisState :=
  cfg.courses.map (fun c => (c.name, []))

/-- Embeds `attendance_list[idx] = 1`, with `none` modelling Python's `IndexError`
when the index is out of range. -/
def setIdx1 (v : List Nat) (idx : Nat) : Option (List Nat) :=
  if idx < v.length then some (v.set idx 1) else none

/-- Embeds `student_attendance[course][student][idx] = 1` at the per-course map:
the `defaultdict` lazily creates `[0] * n` for an unseen student (appending
it in insertion order), then the slot is set. -/
def markStudent (n : Nat) (m : AttMap) (sid : String) (idx : Nat) : Option AttMap :=
  match m with
  | [] => (setIdx1 (List.replicate n 0) idx).map (fun v => [(sid, v)])
  | (s, v) :: rest =>
    if s = sid then (setIdx1 v idx).map (fun w => (s, w) :: rest)
    else (markStudent n rest sid idx).map (fun r => (s, v) :: r)

/-- The same assignment at the whole `student_attendance` dict; `none` at the
empty list models the (unreachable) `KeyError` for an unconfigured course. -/
def markCourse (n : Nat) : AnalysisState → String → String → Nat → Option AnalysisState
  | [], _, _, _ => none
  | (c, m) :: rest, cn, sid, idx =>
    if c = cn then (markStudent n m sid idx).map (fun w => (c, w) :: rest)
    else (markCourse n rest cn sid idx).map (fun r => (c, m) :: r)

/-- Embeds `semester_start_date <= login['date'] <= semester_end_date`. -/
def dateGuardB (cfg : SemesterConfig) (l : Login) : Bool :=
  dateLeB cfg.start_date l.date && dateLeB l.date cfg.end_date

/-- Embeds `start_time <= login['time'] <= end_time`. -/
def timeGuardB (t1 t2 t : Nat) : Bool :=
  decide (t1 ≤ t) && decide (t ≤ t2)

/-- Embeds `_get_attendance_list_index`: `bisect_left(semester_weeks, (year, weeknumber))`. -/
def get_attendance_list_index (cfg : SemesterConfig) (l : Login) : Nat :=
  bisect_left (semester_weeks cfg) (l.year, l.weeknumber)

/-- The body of the inner `for course_name, start_time, end_time in
weekday_terms` loop of `analyze` for one schedule entry. -/
def stepTerm (cfg : SemesterConfig) (l : Login) (st : AnalysisState)
    (e : String × Nat × Nat) : Option AnalysisState :=
  if dateGuardB cfg l && timeGuardB e.2.1 e.2.2 l.time then
    markCourse (semester_weeks cfg).length st e.1 l.student_id
      (get_attendance_list_index cfg l)
  else some st

/-- Processing of one transformed event by the aggregation loop. -/
def processLogin (cfg : SemesterConfig) (st : AnalysisState) (l : Login) :
    Option AnalysisState :=
  (weekday_terms cfg l.weekday).foldlM (stepTerm cfg l) st

/-- The whole aggregation loop of `analyze` over the transformed stream. -/
def analyzeLogins (cfg : SemesterConfig) (logins : List Login) :
    Option AnalysisState :=
  logins.foldlM (processLogin cfg) (initState cfg)

/-- Insert an entry into a key-sorted association list before the first
entry with a strictly greater key. -/
def insertByKey (p : String × List Nat) : AttMap → AttMap
  | [] => [p]
  | q :: rest => if decide (p.1 < q.1) then p :: q :: rest else q :: insertByKey p rest

/-- Embeds `sorted(students.items())`: Python sorts the `(student, list)` pairs;
since the dict keys are distinct this is exactly ordering by student id
(realised here as an insertion sort, which agrees with any sort on lists
with pairwise distinct keys). -/
def sortStudents (m : AttMap) : AttMap :=
  m.foldr insertByKey []

/-- The report rows of one course's dataset:
`[student] + attendance_list + [sum(attendance_list)]` per student, in
sorted order.  A row is modelled as (student id, attendance vector, total). -/
def courseRows (m : AttMap) : List (String × List Nat × Nat) :=
  (sortStudents m).map (fun p => (p.1, p.2, p.2.sum))

/-- End-to-end run: parse the raw lines, apply the transformation pipeline,
aggregate, and produce the per-course report rows.  Diagnostics for
non-matching lines are dropped here (they go to the side channel);
`none` is a fatal strptime failure or an aggregation `IndexError`. -/
def runAnalysis (cfg : SemesterConfig) (lines : List String) :
    Option (List (String × List (String × List Nat × Nat))) :=
  match (genParsedLogLines lines).1.mapM baseTransform with
  | none => none
  | some events =>
    (analyzeLogins cfg (extraPipeline cfg events)).map
      (fun st => st.map (fun p => (p.1, courseRows p.2)))

/-! ## Association-list lookups (specification helpers) -/

/-- First-match lookup of a student's attendance vector. -/
def lookupStudent : AttMap → String → Option (List Nat)
  | [], _ => none
  | (s, v) :: rest, sid => if s = sid then some v else lookupStudent rest sid

/-- First-match lookup of a course's per-student map. -/
def lookupCourse : AnalysisState → String → Option AttMap
  | [], _ => none
  | (c, m) :: rest, cn => if c = cn then some m else lookupCourse rest cn

/-- The event has no schedule match for course `c`: every schedule entry of
its weekday either belongs to another course or fails the semester-date or
time-interval guard. -/
def loginNoMatch (cfg : SemesterConfig) (c : String) (l : Login) : Bool :=
  (weekday_terms cfg l.weekday).all
    (fun e => !(decide (e.1 = c) && dateGuardB cfg l && timeGuardB e.2.1 e.2.2 l.time))

/-! ## Concrete instances used by the claims -/

/-- A semester crossing the ISO year boundary: Monday 2024-12-23 to Monday
2024-12-30 (whose ISO week pair is (2025, 1)). -/
def cfgYearBoundary : SemesterConfig :=
  ⟨⟨2024, 12, 23⟩, ⟨2024, 12, 30⟩, [], [], 0⟩

/-- The end-to-end scenario of the spec: semester Monday 2024-01-08 to
Sunday 2024-01-21, one course CS101 on Monday 09:00-10:00, no overrides,
zero spread. -/
def cfgScenario : SemesterConfig :=
  ⟨⟨2024, 1, 8⟩, ⟨2024, 1, 21⟩,
   [⟨"CS101", "T. Teacher", [(1, [(32400, 36000)])]⟩], [], 0⟩

/-- The same scenario with a five-minute (300 s) login time spread. -/
def cfgSpread : SemesterConfig :=
  ⟨⟨2024, 1, 8⟩, ⟨2024, 1, 21⟩,
   [⟨"CS101", "T. Teacher", [(1, [(32400, 36000)])]⟩], [], 300⟩

/-- A mid-week semester: Wednesday 2024-01-10 to Tuesday 2024-01-16, with a
Monday 09:00-10:00 course, so Monday 2024-01-15 falls inside the semester
but in the ISO week after the single Week Index entry. -/
def cfgMidweek : SemesterConfig :=
  ⟨⟨2024, 1, 10⟩, ⟨2024, 1, 16⟩,
   [⟨"CS101", "T", [(1, [(32400, 36000)])]⟩], [], 0⟩

/-- A course whose Monday interval 00:02-01:00 starts closer to midnight
than the five-minute spread. -/
def cfgMidnight : SemesterConfig :=
  ⟨⟨2024, 1, 8⟩, ⟨2024, 1, 21⟩,
   [⟨"C10", "T", [(1, [(120, 3600)])]⟩], [], 300⟩

/-- The grammar-matching log line of the end-to-end scenario. -/
def lineAlice : String :=
  "2024-01-08 09:05:00 192.168.18.001 lightdm: pam_unix(lightdm:session): session opened for user alice\n"

/-- A grammar-matching log line for student bob on Tuesday 2024-01-09, a
weekday with no scheduled terms. -/
def lineBob : String :=
  "2024-01-09 09:05:00 192.168.18.002 lightdm: pam_unix(lightdm:session): session opened for user bob\n"

/-- The transformed event of `lineAlice`. -/
def loginAlice : Login := toLogin ⟨⟨2024, 1, 8⟩, 32700⟩ "alice"

/-- The transformed event of `lineBob`: Tuesday, no scheduled terms. -/
def loginBob : Login := toLogin ⟨⟨2024, 1, 9⟩, 32700⟩ "bob"

/-- A transformed event on Monday 2024-01-15 at 09:05, inside `cfgMidweek`'s
semester dates and inside the scheduled interval. -/
def loginCarol : Login := toLogin ⟨⟨2024, 1, 15⟩, 32700⟩ "carol"

/-- Events at 08:56 and 08:54 on the scheduled Monday. -/
def loginEarly856 : Login := toLogin ⟨⟨2024, 1, 8⟩, 32160⟩ "alice"

def loginEarly854 : Login := toLogin ⟨⟨2024, 1, 8⟩, 32040⟩ "alice"

/-- A transformed event on Tuesday 2024-12-24, inside the year-boundary
semester, whose week pair is (2024, 52). -/
def loginDave : Login := toLogin ⟨⟨2024, 12, 24⟩, 32700⟩ "dave"

/-! ## Lemmas on the Python tuple order -/

theorem pairLe_refl (p : Nat × Nat) : pairLe p p = true := by
  simp [pairLe]

theorem pairLe_trans {a b c : Nat × Nat} (h1 : pairLe a b = true)
    (h2 : pairLe b c = true) : pairLe a c = true := by
  simp only [pairLe, decide_eq_true_eq] at h1 h2 ⊢
  omega

theorem pairLe_lt_trans {a b c : Nat × Nat} (h1 : pairLe a b = true)
    (h2 : pairLt b c = true) : pairLt a c = true := by
  simp only [pairLe, pairLt, decide_eq_true_eq] at h1 h2 ⊢
  omega

theorem pairLt_false_le {p x : Nat × Nat} (h : pairLt p x = false) :
    pairLe x p = true := by
  simp only [pairLt, decide_eq_false_iff_not] at h
  simp only [pairLe, decide_eq_true_eq]
  omega

theorem pairLt_true_not_le {p x : Nat × Nat} (h : pairLt p x = true) :
    pairLe x p = false := by
  simp only [pairLt, decide_eq_true_eq] at h
  simp only [pairLe, decide_eq_false_iff_not]
  omega

theorem sortedLe_cons {p : Nat × Nat} {rest : List (Nat × Nat)}
    (h : sortedLe (p :: rest) = true) : sortedLe rest = true := by
  cases rest with
  | nil => rfl
  | cons q rs =>
    simp only [sortedLe, Bool.and_eq_true] at h
    exact h.2

theorem sortedLe_head_le {p : Nat × Nat} {rest : List (Nat × Nat)}
    (h : sortedLe (p :: rest) = true) :
    ∀ j, j < rest.length → pairLe p (rest.getD j (0, 0)) = true := by
  induction rest generalizing p with
  | nil => intro j hj; exact absurd hj (by simp)
  | cons q rs ih =>
    intro j hj
    have hpq : pairLe p q = true := by
      simp only [sortedLe, Bool.and_eq_true] at h
      exact h.1
    cases j with
    | zero => simpa using hpq
    | succ j' =>
      have hq := ih (sortedLe_cons h) j' (by simpa using hj)
      simpa using pairLe_trans hpq hq

theorem sortedLe_getD {a : List (Nat × Nat)} (hs : sortedLe a = true) :
    ∀ i j, i ≤ j → j < a.length →
    pairLe (a.getD i (0, 0)) (a.getD j (0, 0)) = true := by
  induction a with
  | nil => intro i j _ hj; exact absurd hj (by simp)
  | cons p rest ih =>
    intro i j hij hj
    cases i with
    | zero =>
      cases j with
      | zero => simpa using pairLe_refl p
      | succ j' =>
        simpa using sortedLe_head_le hs j' (by simpa using hj)
    | succ i' =>
      cases j with
      | zero => omega
      | succ j' =>
        simpa using ih (sortedLe_cons hs) i' j' (by omega) (by simpa using hj)

/-! ## Correctness of `bisect_left` relative to the lower-bound specification -/

theorem firstIndexGE_eq {a : List (Nat × Nat)} {x : Nat × Nat} :
    ∀ k, k ≤ a.length →
    (∀ i, i < k → pairLt (a.getD i (0, 0)) x = true) →
    (k < a.length → pairLe x (a.getD k (0, 0)) = true) →
    firstIndexGE a x = k := by
  induction a with
  | nil =>
    intro k hk _ _
    have : k = 0 := by simpa using hk
    simp [firstIndexGE, this]
  | cons p rest ih =>
    intro k hk hlt hge
    cases k with
    | zero =>
      have h0 : pairLe x p = true := by simpa using hge (by simp)
      simp [firstIndexGE, h0]
    | succ k' =>
      have h0 : pairLt p x = true := by simpa using hlt 0 (Nat.succ_pos k')
      have hnp : pairLe x p = false := pairLt_true_not_le h0
      simp only [firstIndexGE, hnp, Bool.false_eq_true, if_false, Nat.succ.injEq]
      exact ih k' (by simpa using hk)
        (fun i hi => by simpa using hlt (i + 1) (by omega))
        (fun hkl => by simpa using hge (by simpa using Nat.succ_lt_succ hkl))

theorem firstIndexGE_le {a : List (Nat × Nat)} {x : Nat × Nat} :
    ∀ i, i < a.length → pairLe x (a.getD i (0, 0)) = true →
    firstIndexGE a x ≤ i := by
  induction a with
  | nil => intro i hi _; exact absurd hi (by simp)
  | cons p rest ih =>
    intro i hi hle
    by_cases h0 : pairLe x p = true
    · simp [firstIndexGE, h0]
    · have h0' : pairLe x p = false := by
        revert h0; cases pairLe x p <;> simp
      cases i with
      | zero => exact absurd (by simpa using hle) h0
      | succ i' =>
        simp only [firstIndexGE, h0', Bool.false_eq_true, if_false]
        have := ih i' (by simpa using hi) (by simpa using hle)
        omega

theorem bisectLoop_eq {a : List (Nat × Nat)} {x : Nat × Nat}
    (hs : sortedLe a = true) :
    ∀ fuel lo hi, hi ≤ a.length → lo ≤ hi → hi - lo ≤ fuel →
    (∀ i, i < lo → pairLt (a.getD i (0, 0)) x = true) →
    (∀ i, hi ≤ i → i < a.length → pairLe x (a.getD i (0, 0)) = true) →
    bisectLoop a x fuel lo hi = firstIndexGE a x := by
  intro fuel
  induction fuel with
  | zero =>
    intro lo hi h1 h2 h3 h4 h5
    have hlh : lo = hi := by omega
    subst hlh
    rw [bisectLoop]
    exact (firstIndexGE_eq lo (by omega) h4 (fun h => h5 lo (Nat.le_refl lo) h)).symm
  | succ fuel ih =>
    intro lo hi h1 h2 h3 h4 h5
    rw [bisectLoop]
    by_cases hlh : lo < hi
    · rw [if_pos hlh]
      have hml : lo ≤ (lo + hi) / 2 := by omega
      have hmh : (lo + hi) / 2 < hi := by omega
      by_cases hm : pairLt (a.getD ((lo + hi) / 2) (0, 0)) x = true
      · rw [if_pos hm]
        apply ih ((lo + hi) / 2 + 1) hi h1 (by omega) (by omega) ?_ h5
        intro i hi'
        have hle : pairLe (a.getD i (0, 0)) (a.getD ((lo + hi) / 2) (0, 0)) = true :=
          sortedLe_getD hs i ((lo + hi) / 2) (by omega) (by omega)
        exact pairLe_lt_trans hle hm
      · rw [if_neg hm]
        have hm' : pairLt (a.getD ((lo + hi) / 2) (0, 0)) x = false := by
          revert hm; cases pairLt (a.getD ((lo + hi) / 2) (0, 0)) x <;> simp
        apply ih lo ((lo + hi) / 2) (by omega) (by omega) (by omega) h4 ?_
        intro i hge hlen
        exact pairLe_trans (pairLt_false_le hm') (sortedLe_getD hs _ i hge hlen)
    · rw [if_neg hlh]
      have hlh' : lo = hi := by omega
      subst hlh'
      exact (firstIndexGE_eq lo (by omega) h4 (fun h => h5 lo (Nat.le_refl lo) h)).symm

theorem bisect_left_eq_firstIndexGE {a : List (Nat × Nat)} {x : Nat × Nat}
    (hs : sortedLe a = true) : bisect_left a x = firstIndexGE a x := by
  apply bisectLoop_eq hs a.length 0 a.length (Nat.le_refl _) (Nat.zero_le _) (by omega)
    (fun i hi => absurd hi (Nat.not_lt_zero i))
    (fun i h1 h2 => absurd h2 (by omega))

/-! ## Generic lemmas about `Option`-valued folds -/

theorem foldlM_option_cons {α β : Type} (f : α → β → Option α) (a : α) (b : β)
    (bs : List β) :
    (b :: bs).foldlM f a = (f a b).bind (fun a1 => bs.foldlM f a1) := by
  rw [List.foldlM_cons]
  rfl

theorem foldlM_option_inv {α β : Type} {f : α → β → Option α} {P : α → Prop}
    {L : List β}
    (hstep : ∀ a a' b, b ∈ L → P a → f a b = some a' → P a') :
    ∀ {a a'}, P a → L.foldlM f a = some a' → P a' := by
  induction L with
  | nil =>
    intro a a' hP hf
    rw [List.foldlM_nil] at hf
    cases hf
    exact hP
  | cons b bs ih =>
    intro a a' hP hf
    rw [foldlM_option_cons, Option.bind_eq_some] at hf
    obtain ⟨a1, hfa, hf⟩ := hf
    exact ih (fun a a' b hb => hstep a a' b (List.mem_cons_of_mem _ hb))
      (hstep a a1 b (List.mem_cons_self b bs) hP hfa) hf

/-! ## Preservation lemmas for the aggregation state -/

theorem markStudent_lookup_ne {n : Nat} {m m' : AttMap} {sid s : String}
    {idx : Nat} (hne : sid ≠ s) (h : markStudent n m sid idx = some m') :
    lookupStudent m' s = lookupStudent m s := by
  induction m generalizing m' with
  | nil =>
    rw [markStudent, Option.map_eq_some'] at h
    obtain ⟨v, _, rfl⟩ := h
    simp [lookupStudent, hne]
  | cons kv rest ih =>
    obtain ⟨k, v⟩ := kv
    rw [markStudent] at h
    by_cases hk : k = sid
    · rw [if_pos hk] at h
      rw [Option.map_eq_some'] at h
      obtain ⟨w, _, rfl⟩ := h
      simp only [lookupStudent]
      have : k ≠ s := hk ▸ hne
      rw [if_neg this, if_neg this]
    · rw [if_neg hk, Option.map_eq_some'] at h
      obtain ⟨r, hr, rfl⟩ := h
      simp only [lookupStudent]
      by_cases hks : k = s
      · rw [if_pos hks, if_pos hks]
      · rw [if_neg hks, if_neg hks]
        exact ih hr

theorem markCourse_chars {n : Nat} {st st' : AnalysisState} {cn sid : String}
    {idx : Nat} (h : markCourse n st cn sid idx = some st') :
    (∃ m0 m1, lookupCourse st cn = some m0 ∧ markStudent n m0 sid idx = some m1 ∧
      lookupCourse st' cn = some m1) ∧
    ∀ c, c ≠ cn → lookupCourse st' c = lookupCourse st c := by
  induction st generalizing st' with
  | nil => rw [markCourse] at h; cases h
  | cons cm rest ih =>
    obtain ⟨c0, m⟩ := cm
    rw [markCourse] at h
    by_cases hc : c0 = cn
    · rw [if_pos hc, Option.map_eq_some'] at h
      obtain ⟨w, hw, rfl⟩ := h
      subst hc
      refine ⟨⟨m, w, by simp [lookupCourse], hw, by simp [lookupCourse]⟩, ?_⟩
      intro c hcne
      have : c0 ≠ c := fun he => hcne he.symm
      simp only [lookupCourse]
      rw [if_neg this, if_neg this]
    · rw [if_neg hc, Option.map_eq_some'] at h
      obtain ⟨r, hr, rfl⟩ := h
      obtain ⟨⟨m0, m1, hl0, hm, hl1⟩, hother⟩ := ih hr
      constructor
      · refine ⟨m0, m1, ?_, hm, ?_⟩
        · simp only [lookupCourse]; rw [if_neg hc]; exact hl0
        · simp only [lookupCourse]; rw [if_neg hc]; exact hl1
      · intro c hcne
        simp only [lookupCourse]
        by_cases hcc : c0 = c
        · rw [if_pos hcc, if_pos hcc]
        · rw [if_neg hcc, if_neg hcc]
          exact hother c hcne

theorem lookupCourse_mapEmpty {cs : List CourseCfg} {c : String} {m : AttMap}
    (h : lookupCourse (cs.map (fun c0 => (c0.name, ([] : AttMap)))) c = some m) :
    m = [] := by
  induction cs with
  | nil => cases h
  | cons c0 rest ih =>
    rw [List.map_cons, lookupCourse] at h
    by_cases hc : c0.name = c
    · rw [if_pos hc] at h
      cases h
      rfl
    · rw [if_neg hc] at h
      exact ih h

theorem lookupCourse_initState {cfg : SemesterConfig} {c : String} {m : AttMap}
    (h : lookupCourse (initState cfg) c = some m) : m = [] := by
  unfold initState at h
  exact lookupCourse_mapEmpty h

theorem lookupStudent_of_mem {m : AttMap} {s : String} {v : List Nat}
    (h : (s, v) ∈ m) : ∃ w, lookupStudent m s = some w := by
  induction m with
  | nil => cases h
  | cons kv rest ih =>
    obtain ⟨k, u⟩ := kv
    rw [lookupStudent]
    by_cases hk : k = s
    · exact ⟨u, if_pos hk⟩
    · rw [if_neg hk]
      rcases List.mem_cons.mp h with he | hm

      · cases he; exact absurd rfl hk
      · exact ih hm

theorem mem_insertByKey {a p : String × List Nat} {m : AttMap}
    (h : a ∈ insertByKey p m) : a = p ∨ a ∈ m := by
  induction m with
  | nil =>
    rw [insertByKey] at h
    rcases List.mem_singleton.mp h with rfl
    exact Or.inl rfl
  | cons q rest ih =>
    rw [insertByKey] at h
    by_cases hc : decide (p.1 < q.1) = true
    · rw [if_pos hc] at h
      rcases List.mem_cons.mp h with rfl | h2
      · exact Or.inl rfl
      · exact Or.inr h2
    · rw [if_neg hc] at h
      rcases List.mem_cons.mp h with rfl | h2
      · exact Or.inr (List.mem_cons_self _ _)
      · rcases ih h2 with h3 | h3
        · exact Or.inl h3
        · exact Or.inr (List.mem_cons_of_mem _ h3)

theorem mem_sortStudents {a : String × List Nat} {m : AttMap}
    (h : a ∈ sortStudents m) : a ∈ m := by
  induction m with
  | nil => cases h
  | cons q rest ih =>
    rw [sortStudents, List.foldr_cons] at h
    rcases mem_insertByKey h with rfl | h2
    · exact List.mem_cons_self _ _
    · exact List.mem_cons_of_mem _ (ih h2)

theorem not_mem_courseRows {m : AttMap} {s : String}
    (h : lookupStudent m s = none) :
    ∀ v t, (s, v, t) ∉ courseRows m := by
  intro v t hmem
  unfold courseRows at hmem
  rw [List.mem_map] at hmem
  obtain ⟨⟨s', v'⟩, hmem', heq⟩ := hmem
  have hs : s' = s := congrArg Prod.fst heq
  subst hs
  have : (s', v') ∈ m := mem_sortStudents hmem'
  obtain ⟨w, hw⟩ := lookupStudent_of_mem this
  rw [hw] at h
  cases h

theorem stepTerm_inv {cfg : SemesterConfig} {l : Login} {c s : String}
    (hl : l.student_id = s → loginNoMatch cfg c l = true)
    {st st' : AnalysisState} {e : String × Nat × Nat}
    (he : e ∈ weekday_terms cfg l.weekday)
    (hP : ∀ m, lookupCourse st c = some m → lookupStudent m s = none)
    (h : stepTerm cfg l st e = some st') :
    ∀ m, lookupCourse st' c = some m → lookupStudent m s = none := by
  rw [stepTerm] at h
  by_cases hg : (dateGuardB cfg l && timeGuardB e.2.1 e.2.2 l.time) = true
  · rw [if_pos hg] at h
    by_cases hcn : e.1 = c
    · by_cases hsid : l.student_id = s
      · exfalso
        have hnm := hl hsid
        rw [loginNoMatch, List.all_eq_true] at hnm
        have hfalse := hnm e he
        rw [Bool.and_eq_true] at hg
        simp [hcn, hg.1, hg.2] at hfalse
      · obtain ⟨⟨m0, m1, hl0, hm, hl1⟩, _⟩ := markCourse_chars h
        intro m hm'
        rw [hcn] at hl1
        rw [hl1] at hm'
        cases hm'
        rw [markStudent_lookup_ne hsid hm]
        rw [hcn] at hl0
        exact hP m0 hl0
    · obtain ⟨_, hother⟩ := markCourse_chars h
      intro m hm'
      rw [hother c (fun he' => hcn he'.symm)] at hm'
      exact hP m hm'
  · rw [if_neg hg] at h
    cases h
    exact hP

theorem processLogin_inv {cfg : SemesterConfig} {c s : String} {l : Login}
    (hl : l.student_id = s → loginNoMatch cfg c l = true)
    {st st' : AnalysisState} (h : processLogin cfg st l = some st')
    (hP : ∀ m, lookupCourse st c = some m → lookupStudent m s = none) :
    ∀ m, lookupCourse st' c = some m → lookupStudent m s = none := by
  rw [processLogin] at h
  exact foldlM_option_inv (fun a a' e he hPa ha => stepTerm_inv hl he hPa ha) hP h

/-! ## Idempotence of attendance marking -/

theorem setIdx1_absorb {v w : List Nat} {idx : Nat}
    (h : setIdx1 v idx = some w) : setIdx1 w idx = some w := by
  unfold setIdx1 at h ⊢
  by_cases hlen : idx < v.length
  · rw [if_pos hlen] at h
    cases h
    rw [if_pos (by rw [List.length_set]; exact hlen), List.set_set]
  · rw [if_neg hlen] at h
    cases h

theorem setIdx1_fix_pres {v w : List Nat} {idx idx' : Nat}
    (hfix : setIdx1 v idx = some v) (h : setIdx1 v idx' = some w) :
    setIdx1 w idx = some w := by
  unfold setIdx1 at hfix h ⊢
  by_cases hlen : idx < v.length
  · rw [if_pos hlen] at hfix
    by_cases hlen' : idx' < v.length
    · rw [if_pos hlen'] at h
      cases h
      injection hfix with hv
      rw [if_pos (by rw [List.length_set]; exact hlen)]
      by_cases hii : idx' = idx
      · subst hii
        rw [List.set_set]
      · rw [List.set_comm 1 1 v hii, hv]
    · rw [if_neg hlen'] at h
      cases h
  · rw [if_neg hlen] at hfix
    cases hfix

theorem markStudent_idem {n : Nat} {m m' : AttMap} {sid : String} {idx : Nat}
    (h : markStudent n m sid idx = some m') :
    markStudent n m' sid idx = some m' := by
  induction m generalizing m' with
  | nil =>
    rw [markStudent, Option.map_eq_some'] at h
    obtain ⟨v, hv, rfl⟩ := h
    rw [markStudent, if_pos rfl, setIdx1_absorb hv]
    rfl
  | cons kv rest ih =>
    obtain ⟨k, u⟩ := kv
    rw [markStudent] at h
    by_cases hk : k = sid
    · rw [if_pos hk, Option.map_eq_some'] at h
      obtain ⟨w, hw, rfl⟩ := h
      rw [markStudent, if_pos hk, setIdx1_absorb hw]
      rfl
    · rw [if_neg hk, Option.map_eq_some'] at h
      obtain ⟨r, hr, rfl⟩ := h
      rw [markStudent, if_neg hk, ih hr]
      rfl

theorem markStudent_fix_pres {n : Nat} {m m1 : AttMap} {sid sid' : String}
    {idx idx' : Nat} (hfix : markStudent n m sid idx = some m)
    (h : markStudent n m sid' idx' = some m1) :
    markStudent n m1 sid idx = some m1 := by
  induction m generalizing m1 with
  | nil =>
    rw [markStudent, Option.map_eq_some'] at hfix
    obtain ⟨v, _, hbad⟩ := hfix
    cases hbad
  | cons kv rest ih =>
    obtain ⟨k, u⟩ := kv
    rw [markStudent] at hfix h
    by_cases hk : k = sid
    · rw [if_pos hk, Option.map_eq_some'] at hfix
      obtain ⟨w, hw, hfx⟩ := hfix
      injection hfx with h1 h2
      injection h1 with _ hwu
      subst hwu
      by_cases hk' : k = sid'
      · rw [if_pos hk', Option.map_eq_some'] at h
        obtain ⟨w', hw', rfl⟩ := h
        rw [markStudent, if_pos hk, setIdx1_fix_pres hw hw']
        rfl
      · rw [if_neg hk', Option.map_eq_some'] at h
        obtain ⟨r, hr, rfl⟩ := h
        rw [markStudent, if_pos hk, hw]
        rfl
    · rw [if_neg hk, Option.map_eq_some'] at hfix
      obtain ⟨r0, hr0, hfx⟩ := hfix
      injection hfx with _ hrr
      rw [hrr] at hr0
      by_cases hk' : k = sid'
      · rw [if_pos hk', Option.map_eq_some'] at h
        obtain ⟨w', hw', rfl⟩ := h
        rw [markStudent, if_neg hk, hr0]
        rfl
      · rw [if_neg hk', Option.map_eq_some'] at h
        obtain ⟨r1, hr1, rfl⟩ := h
        rw [markStudent, if_neg hk, ih hr0 hr1]
        rfl

theorem markCourse_idem {n : Nat} {st st' : AnalysisState} {cn sid : String}
    {idx : Nat} (h : markCourse n st cn sid idx = some st') :
    markCourse n st' cn sid idx = some st' := by
  induction st generalizing st' with
  | nil => rw [markCourse] at h; cases h
  | cons cm rest ih =>
    obtain ⟨c0, m⟩ := cm
    rw [markCourse] at h
    by_cases hc : c0 = cn
    · rw [if_pos hc, Option.map_eq_some'] at h
      obtain ⟨w, hw, rfl⟩ := h
      rw [markCourse, if_pos hc, markStudent_idem hw]
      rfl
    · rw [if_neg hc, Option.map_eq_some'] at h
      obtain ⟨r, hr, rfl⟩ := h
      rw [markCourse, if_neg hc, ih hr]
      rfl

theorem markCourse_fix_pres {n : Nat} {st st1 : AnalysisState}
    {cn cn' sid sid' : String} {idx idx' : Nat}
    (hfix : markCourse n st cn sid idx = some st)
    (h : markCourse n st cn' sid' idx' = some st1) :
    markCourse n st1 cn sid idx = some st1 := by
  induction st generalizing st1 with
  | nil => rw [markCourse] at hfix; cases hfix
  | cons cm rest ih =>
    obtain ⟨c0, m⟩ := cm
    rw [markCourse] at hfix h
    by_cases hc : c0 = cn
    · rw [if_pos hc, Option.map_eq_some'] at hfix
      obtain ⟨w, hw, hfx⟩ := hfix
      injection hfx with h1 h2
      injection h1 with _ hwu
      subst hwu
      by_cases hc' : c0 = cn'
      · rw [if_pos hc', Option.map_eq_some'] at h
        obtain ⟨w', hw', rfl⟩ := h
        rw [markCourse, if_pos hc, markStudent_fix_pres hw hw']
        rfl
      · rw [if_neg hc', Option.map_eq_some'] at h
        obtain ⟨r, hr, rfl⟩ := h
        rw [markCourse, if_pos hc, hw]
        rfl
    · rw [if_neg hc, Option.map_eq_some'] at hfix
      obtain ⟨r0, hr0, hfx⟩ := hfix
      injection hfx with _ hrr
      rw [hrr] at hr0
      by_cases hc' : c0 = cn'
      · rw [if_pos hc', Option.map_eq_some'] at h
        obtain ⟨w', hw', rfl⟩ := h
        rw [markCourse, if_neg hc, hr0]
        rfl
      · rw [if_neg hc', Option.map_eq_some'] at h
        obtain ⟨r1, hr1, rfl⟩ := h
        rw [markCourse, if_neg hc, ih hr0 hr1]
        rfl

theorem stepTerm_idem {cfg : SemesterConfig} {l : Login}
    {st st' : AnalysisState} {e : String × Nat × Nat}
    (h : stepTerm cfg l st e = some st') : stepTerm cfg l st' e = some st' := by
  rw [stepTerm] at h
  by_cases hg : (dateGuardB cfg l && timeGuardB e.2.1 e.2.2 l.time) = true
  · rw [if_pos hg] at h
    rw [stepTerm, if_pos hg]
    exact markCourse_idem h
  · rw [if_neg hg] at h
    cases h
    rw [stepTerm, if_neg hg]

theorem stepTerm_fix_pres {cfg : SemesterConfig} {l : Login}
    {st st1 : AnalysisState} {e e' : String × Nat × Nat}
    (hfix : stepTerm cfg l st e = some st)
    (h : stepTerm cfg l st e' = some st1) :
    stepTerm cfg l st1 e = some st1 := by
  rw [stepTerm] at hfix h
  by_cases hg : (dateGuardB cfg l && timeGuardB e.2.1 e.2.2 l.time) = true
  · rw [if_pos hg] at hfix
    rw [stepTerm, if_pos hg]
    by_cases hg' : (dateGuardB cfg l && timeGuardB e'.2.1 e'.2.2 l.time) = true
    · rw [if_pos hg'] at h
      exact markCourse_fix_pres hfix h
    · rw [if_neg hg'] at h
      cases h
      exact hfix
  · rw [stepTerm, if_neg hg]

theorem foldlM_fix_pres {α β : Type} {f : α → β → Option α}
    (hpres : ∀ a a1 b b', f a b = some a → f a b' = some a1 → f a1 b = some a1) :
    ∀ (L : List β) {a a' : α} {b : β}, f a b = some a →
    L.foldlM f a = some a' → f a' b = some a' := by
  intro L
  induction L with
  | nil =>
    intro a a' b hfx hf
    rw [List.foldlM_nil] at hf
    cases hf
    exact hfx
  | cons b0 bs ih =>
    intro a a' b hfx hf
    rw [foldlM_option_cons, Option.bind_eq_some] at hf
    obtain ⟨a1, hf0, hf⟩ := hf
    exact ih (hpres a a1 b b0 hfx hf0) hf

theorem foldlM_all_fix {α β : Type} {f : α → β → Option α}
    (hidem : ∀ a a' b, f a b = some a' → f a' b = some a')
    (hpres : ∀ a a1 b b', f a b = some a → f a b' = some a1 → f a1 b = some a1) :
    ∀ (L : List β) {a a' : α}, L.foldlM f a = some a' → ∀ b ∈ L, f a' b = some a' := by
  intro L
  induction L with
  | nil =>
    intro a a' _ b hb
    cases hb
  | cons b0 bs ih =>
    intro a a' hf b hb
    rw [foldlM_option_cons, Option.bind_eq_some] at hf
    obtain ⟨a1, hf0, hf⟩ := hf
    rcases List.mem_cons.mp hb with rfl | hbs
    · exact foldlM_fix_pres hpres bs (hidem a a1 b hf0) hf
    · exact ih hf b hbs

theorem foldlM_of_all_fix {α β : Type} {f : α → β → Option α} :
    ∀ (L : List β) {a : α}, (∀ b ∈ L, f a b = some a) → L.foldlM f a = some a := by
  intro L
  induction L with
  | nil =>
    intro a _
    rw [List.foldlM_nil]
    rfl
  | cons b0 bs ih =>
    intro a hall
    rw [foldlM_option_cons, hall b0 (List.mem_cons_self _ _), Option.some_bind]
    exact ih (fun b hb => hall b (List.mem_cons_of_mem _ hb))

theorem processLogin_idem {cfg : SemesterConfig} {st st' : AnalysisState}
    {l : Login} (h : processLogin cfg st l = some st') :
    processLogin cfg st' l = some st' := by
  rw [processLogin] at h ⊢
  refine foldlM_of_all_fix _ ?_
  refine foldlM_all_fix ?_ ?_ _ h
  · exact fun a a' e h' => stepTerm_idem h'
  · exact fun a a1 e e' hfx h' => stepTerm_fix_pres hfx h'

theorem foldlM_option_append {α β : Type} (f : α → β → Option α) (a : α)
    (xs ys : List β) :
    (xs ++ ys).foldlM f a = (xs.foldlM f a).bind (fun b => ys.foldlM f b) := by
  rw [List.foldlM_append]
  rfl

/-! ## String support lemmas for the parser claims -/

theorem genParsedLogLines_append (xs ys : List String) :
    genParsedLogLines (xs ++ ys) =
      ((genParsedLogLines xs).1 ++ (genParsedLogLines ys).1,
       (genParsedLogLines xs).2 ++ (genParsedLogLines ys).2) := by
  induction xs with
  | nil => simp [genParsedLogLines]
  | cons line rest ih =>
    cases hm : logFormatMatch line with
    | some r => simp [genParsedLogLines, hm, ih]
    | none => simp [genParsedLogLines, hm, ih]

theorem truncLast_newline (content : String) :
    truncLast (content ++ "\n") = content := by
  unfold truncLast
  rw [show (content ++ "\n").toList = content.toList ++ ['\n'] from by
    simp [String.toList, String.data_append]]
  rw [List.dropLast_concat]
  cases content
  rfl

/-! ## The claims -/

/-- C1: the claim states the Week Index is strictly increasing in Python
tuple order with each entry being the ISO (year, week-number) pair of the
visited date.  The code instead pairs the naive calendar year `start.year`
with the ISO week number: for the semester 2024-12-23 .. 2024-12-30 it
produces `[(2024, 52), (2024, 1)]`, which is strictly decreasing at the ISO
year boundary, although the true ISO pair of 2024-12-30 is `(2025, 1)`
(which would have kept the list strictly increasing). -/
theorem claim_C1 :
    semester_weeks cfgYearBoundary = [(2024, 52), (2024, 1)] ∧
    sortedLe (semester_weeks cfgYearBoundary) = false ∧
    pairLt ((semester_weeks cfgYearBoundary).getD 0 (0, 0))
      ((semester_weeks cfgYearBoundary).getD 1 (0, 0)) = false ∧
    isocalendarYW ⟨2024, 12, 30⟩ = (2025, 1) := by
  decide

/-- C2 counterexample: in the year-boundary semester the Week Index is the
unsorted `[(2024, 52), (2024, 1)]` (see C1), and for the in-semester event
of 2024-12-24 — week pair (2024, 52) — the computed bucket is 2 while the
first entry greater than or equal to the pair sits at index 0, so the claim
as stated (for every transformed event) fails on the code. -/
theorem claim_C2_counterexample :
    get_attendance_list_index cfgYearBoundary loginDave = 2 ∧
    firstIndexGE (semester_weeks cfgYearBoundary)
      (loginDave.year, loginDave.weeknumber) = 0 ∧
    ¬ get_attendance_list_index cfgYearBoundary loginDave =
        firstIndexGE (semester_weeks cfgYearBoundary)
          (loginDave.year, loginDave.weeknumber) := by
  decide

/-- C2 (amended): whenever the Week Index is sorted (the intended situation;
the C1 year-boundary bug is the only way it is not), the attendance bucket
computed by `_get_attendance_list_index` (CPython's `bisect_left`) is
exactly the index of the first Week Index entry greater than or equal to the
event's `(year, weeknumber)` pair — a lower-bound search, not an exact
match. -/
theorem claim_C2 (cfg : SemesterConfig) (l : Login)
    (hs : sortedLe (semester_weeks cfg) = true) :
    get_attendance_list_index cfg l =
      firstIndexGE (semester_weeks cfg) (l.year, l.weeknumber) := by
  rw [get_attendance_list_index]
  exact bisect_left_eq_firstIndexGE hs

/-- C2 witness: the scenario semester has a sorted Week Index and the
lower-bound characterisation evaluates on alice's login. -/
theorem claim_C2_witness :
    sortedLe (semester_weeks cfgScenario) = true ∧
    get_attendance_list_index cfgScenario loginAlice =
      firstIndexGE (semester_weeks cfgScenario)
        (loginAlice.year, loginAlice.weeknumber) :=
  ⟨by decide, claim_C2 cfgScenario loginAlice (by decide)⟩

/-- C3 counterexample: the semester Wednesday 2024-01-10 .. Tuesday
2024-01-16 has the one-entry Week Index `[(2024, 2)]`, yet the Monday
2024-01-15 09:05 login passes the semester-date guard and lies inside the
scheduled 09:00-10:00 interval while its bucket index is 1 = the vector
length, so the write `attendance_list[index] = 1` is out of bounds and the
aggregation run fails (`none` models the `IndexError`). -/
theorem claim_C3_counterexample :
    dateGuardB cfgMidweek loginCarol = true ∧
    weekday_terms cfgMidweek loginCarol.weekday = [("CS101", 32400, 36000)] ∧
    timeGuardB 32400 36000 loginCarol.time = true ∧
    get_attendance_list_index cfgMidweek loginCarol = 1 ∧
    (init_attendance_list cfgMidweek).length = 1 ∧
    ¬ get_attendance_list_index cfgMidweek loginCarol <
        (init_attendance_list cfgMidweek).length ∧
    analyzeLogins cfgMidweek [loginCarol] = none := by
  decide

/-- C3 (amended): the bucket index is strictly below the attendance-vector
length provided the Week Index is sorted, non-empty, and the event's
`(year, weeknumber)` pair does not exceed the last Week Index entry; without
the last hypothesis the index can equal the length (see the counterexample). -/
theorem claim_C3 (cfg : SemesterConfig) (l : Login)
    (hs : sortedLe (semester_weeks cfg) = true)
    (hne : semester_weeks cfg ≠ [])
    (hle : pairLe (l.year, l.weeknumber)
      ((semester_weeks cfg).getD ((semester_weeks cfg).length - 1) (0, 0)) = true) :
    get_attendance_list_index cfg l < (init_attendance_list cfg).length := by
  rw [init_attendance_list, List.length_replicate, get_attendance_list_index,
    bisect_left_eq_firstIndexGE hs]
  have hpos : 0 < (semester_weeks cfg).length := List.length_pos.mpr hne
  have hfi := firstIndexGE_le ((semester_weeks cfg).length - 1) (by omega) hle
  omega

/-- C3 witness: in the scenario semester alice's bucket is in bounds. -/
theorem claim_C3_witness :
    (sortedLe (semester_weeks cfgScenario) = true ∧
     semester_weeks cfgScenario ≠ [] ∧
     pairLe (loginAlice.year, loginAlice.weeknumber)
       ((semester_weeks cfgScenario).getD
         ((semester_weeks cfgScenario).length - 1) (0, 0)) = true) ∧
    get_attendance_list_index cfgScenario loginAlice <
      (init_attendance_list cfgScenario).length :=
  ⟨⟨by decide, by decide, by decide⟩,
    claim_C3 cfgScenario loginAlice (by decide) (by decide) (by decide)⟩

/-- C4 counterexample: bob's grammar-matching "opened" event parses fine but
matches no scheduled interval (Tuesday has none), and the produced CS101
report contains no row at all for bob — he is absent, not represented by an
all-zero attendance row as the claim states. -/
theorem claim_C4_counterexample :
    (genParsedLogLines [lineBob]).1.length = 1 ∧
    runAnalysis cfgScenario [lineBob] = some [("CS101", [])] := by
  decide

/-- C4 (amended): a student none of whose events match a course's schedule
(per the semester-date and interval guards) is simply absent from that
course's report — the per-course map has no entry for them and no report row
carries their id — rather than appearing as an all-zero row; the run itself
does not error on their account. -/
theorem claim_C4 (cfg : SemesterConfig) (logins : List Login)
    (st : AnalysisState) (c s : String) (m : AttMap)
    (hrun : analyzeLogins cfg logins = some st)
    (hnm : ∀ l ∈ logins, l.student_id = s → loginNoMatch cfg c l = true)
    (hc : lookupCourse st c = some m) :
    lookupStudent m s = none ∧ ∀ v t, (s, v, t) ∉ courseRows m := by
  have hP : ∀ m', lookupCourse st c = some m' → lookupStudent m' s = none := by
    rw [analyzeLogins] at hrun
    refine @foldlM_option_inv AnalysisState Login (processLogin cfg)
      (fun st0 => ∀ m', lookupCourse st0 c = some m' → lookupStudent m' s = none)
      logins ?_ (initState cfg) st ?_ hrun
    · intro a a' l hl hPa ha
      exact processLogin_inv (fun hsid => hnm l hl hsid) ha hPa
    · intro m0 h0
      rw [lookupCourse_initState h0]
      rfl
  have h1 := hP m hc
  exact ⟨h1, not_mem_courseRows h1⟩

/-- C4 witness: bob's Tuesday login matches nothing, and CS101's map and
rows contain no entry for bob. -/
theorem claim_C4_witness :
    (analyzeLogins cfgScenario [loginBob] = some [("CS101", [])] ∧
     (∀ l ∈ [loginBob], l.student_id = "bob" →
        loginNoMatch cfgScenario "CS101" l = true) ∧
     lookupCourse [("CS101", [])] "CS101" = some []) ∧
    (lookupStudent [] "bob" = none ∧ ∀ v t, ("bob", v, t) ∉ courseRows []) :=
  ⟨⟨by decide, by decide, by decide⟩,
    claim_C4 cfgScenario [loginBob] [("CS101", [])] "CS101" "bob" []
      (by decide) (by decide) (by decide)⟩

/-- C5: a line on which the log grammar fails to match contributes no parsed
record, adds exactly one diagnostic whose text is the line truncated of its
trailing line terminator, and leaves every other line's processing
unchanged. -/
theorem claim_C5 (pre post : List String) (line content : String)
    (hm : logFormatMatch line = none) (hline : line = content ++ "\n") :
    (genParsedLogLines (pre ++ line :: post)).1 =
      (genParsedLogLines (pre ++ post)).1 ∧
    (genParsedLogLines (pre ++ line :: post)).2 =
      (genParsedLogLines pre).2 ++ diagMsg line :: (genParsedLogLines post).2 ∧
    diagMsg line = "Unknown line found while parsing: " ++ content := by
  refine ⟨?_, ?_, ?_⟩
  · simp [genParsedLogLines_append, genParsedLogLines, hm]
  · simp [genParsedLogLines_append, genParsedLogLines, hm]
  · rw [diagMsg, hline, truncLast_newline]

/-- C5 witness: a concrete garbage line yields no record and the expected
truncated diagnostic. -/
theorem claim_C5_witness :
    (logFormatMatch "hello world\n" = none ∧
     "hello world\n" = "hello world" ++ "\n") ∧
    ((genParsedLogLines ([] ++ "hello world\n" :: [lineAlice])).1 =
       (genParsedLogLines ([] ++ [lineAlice])).1 ∧
     (genParsedLogLines ([] ++ "hello world\n" :: [lineAlice])).2 =
       (genParsedLogLines []).2 ++ diagMsg "hello world\n" ::
         (genParsedLogLines [lineAlice]).2 ∧
     diagMsg "hello world\n" = "Unknown line found while parsing: " ++ "hello world") :=
  ⟨⟨by decide, by decide⟩,
    claim_C5 [] [lineAlice] "hello world\n" "hello world" (by decide) (by decide)⟩

/-- C6: away from the midnight wrap-around a non-zero spread moves every
interval start earlier and end later by exactly the spread, a zero spread is
the identity, and with the five-minute spread the Monday 09:00-10:00 course
interval becomes 08:55-10:05, so alice's 08:56 login marks attendance while
the 08:54 one leaves the state untouched. -/
theorem claim_C6 :
    (∀ s e sp : Nat, sp ≠ 0 → sp ≤ s → s < 86400 → e + sp < 86400 →
      expandIfSpread sp (s, e) = (s - sp, e + sp)) ∧
    (∀ term, expandIfSpread 0 term = term) ∧
    weekday_terms cfgSpread 1 = [("CS101", 32100, 36300)] ∧
    processLogin cfgSpread (initState cfgSpread) loginEarly856 =
      some [("CS101", [("alice", [1, 0])])] ∧
    processLogin cfgSpread (initState cfgSpread) loginEarly854 =
      some (initState cfgSpread) := by
  refine ⟨?_, fun term => rfl, by decide, by decide, by decide⟩
  intro s e sp h0 h1 h2 h3
  rw [expandIfSpread, if_neg h0, expand_term_interval]
  rw [Prod.mk.injEq]
  constructor
  · show (((s : Int) + -(sp : Int)) % 86400).toNat = s - sp
    omega
  · show (((e : Int) + (sp : Int)) % 86400).toNat = e + sp
    omega

/-- C6 witness: the general widening law evaluated at the 09:00-10:00
interval with a 300-second spread. -/
theorem claim_C6_witness :
    ((300 : Nat) ≠ 0 ∧ (300 : Nat) ≤ 32400 ∧ (32400 : Nat) < 86400 ∧
      (36000 : Nat) + 300 < 86400) ∧
    expandIfSpread 300 (32400, 36000) = (32400 - 300, 36000 + 300) :=
  ⟨⟨by decide, by decide, by decide, by decide⟩,
    claim_C6.1 32400 36000 300 (by decide) (by decide) (by decide) (by decide)⟩

/-- C7: the override scan substitutes the holiday date of the first override
whose `completed_on` equals the event's calendar date, preserving the time
of day, and passes the timestamp through when none matches; the event dated
2024-03-18 with a 2024-03-12 holiday date is subsequently evaluated with
weekday 2 (Tuesday). -/
theorem claim_C7 :
    (∀ ovs dt, apply_schedule_overrides ovs dt =
      match ovs.find? (fun o => decide (o.completed_on = dt.date)) with
      | some o => ⟨o.holiday_date, dt.time⟩
      | none => dt) ∧
    apply_schedule_overrides [⟨⟨2024, 3, 18⟩, ⟨2024, 3, 12⟩⟩]
      ⟨⟨2024, 3, 18⟩, 32700⟩ = ⟨⟨2024, 3, 12⟩, 32700⟩ ∧
    isoweekday ⟨2024, 3, 18⟩ = 1 ∧
    isoweekday ⟨2024, 3, 12⟩ = 2 ∧
    (toLogin (apply_schedule_overrides [⟨⟨2024, 3, 18⟩, ⟨2024, 3, 12⟩⟩]
      ⟨⟨2024, 3, 18⟩, 32700⟩) "alice").weekday = 2 := by
  refine ⟨?_, by decide, by decide, by decide, by decide⟩
  intro ovs dt
  induction ovs with
  | nil => rfl
  | cons o rest ih =>
    rw [apply_schedule_overrides]
    by_cases hc : o.completed_on = dt.date
    · rw [if_pos hc]
      rw [List.find?_cons, show decide (o.completed_on = dt.date) = true from by
        simp [hc]]
    · rw [if_neg hc]
      rw [List.find?_cons, show decide (o.completed_on = dt.date) = false from by
        simp [hc]]
      exact ih

/-- C8: attendance marking is idempotent — feeding the same transformed
event twice through the aggregation loop produces exactly the same result
(state or error) as feeding it once, after any prefix of other events. -/
theorem claim_C8 (cfg : SemesterConfig) (pre : List Login) (e : Login) :
    analyzeLogins cfg (pre ++ [e, e]) = analyzeLogins cfg (pre ++ [e]) := by
  rw [analyzeLogins, analyzeLogins, foldlM_option_append, foldlM_option_append]
  cases h0 : List.foldlM (processLogin cfg) (initState cfg) pre with
  | none => rfl
  | some st0 =>
    simp only [Option.some_bind]
    rw [foldlM_option_cons, foldlM_option_cons]
    cases h1 : processLogin cfg st0 e with
    | none => rfl
    | some st1 =>
      simp only [Option.some_bind]
      rw [foldlM_option_cons, processLogin_idem h1, Option.some_bind]

/-- C9: the end-to-end scenario — semester 2024-01-08 .. 2024-01-21, CS101
on Monday 09:00-10:00, and alice's "opened" log line at 2024-01-08 09:05:00 —
produces exactly the CS101 report row (alice, [1, 0], 1): week 02 attended,
week 03 not, total 1. -/
theorem claim_C9 :
    runAnalysis cfgScenario [lineAlice] =
      some [("CS101", [("alice", [1, 0], 1)])] := by
  decide

/-- C10: tolerance widening is arithmetic modulo 24 hours, so an interval
whose start is within the spread of midnight wraps to late evening: the
00:02-01:00 interval with a 300-second spread becomes 23:57-01:05, the time
guard then accepts no time of day, and the aggregation loop leaves every
state unchanged for every event. -/
theorem claim_C10 :
    (∀ s e sp : Nat, sp ≠ 0 → sp ≤ 86400 →
      expandIfSpread sp (s, e) = ((s + 86400 - sp) % 86400, (e + sp) % 86400)) ∧
    expandIfSpread 300 (120, 3600) = (86220, 3900) ∧
    (∀ t : Nat, timeGuardB 86220 3900 t = false) ∧
    (∀ st l, processLogin cfgMidnight st l = some st) := by
  have htg : ∀ t : Nat, timeGuardB 86220 3900 t = false := by
    intro t
    rcases le_or_lt 86220 t with h | h
    · have hn : ¬ t ≤ 3900 := by omega
      simp [timeGuardB, hn]
    · have hn : ¬ 86220 ≤ t := by omega
      simp [timeGuardB, hn]
  refine ⟨?_, by decide, htg, ?_⟩
  · intro s e sp h0 h1
    rw [expandIfSpread, if_neg h0, expand_term_interval]
    rw [Prod.mk.injEq]
    constructor
    · show (((s : Int) + -(sp : Int)) % 86400).toNat = (s + 86400 - sp) % 86400
      omega
    · show (((e : Int) + (sp : Int)) % 86400).toNat = (e + sp) % 86400
      omega
  · intro st l
    rw [processLogin]
    have hexp : expandIfSpread 300 (120, 3600) = (86220, 3900) := by decide
    have hterms : weekday_terms cfgMidnight l.weekday =
        if 1 = l.weekday then [("C10", 86220, 3900)] else [] := by
      simp only [weekday_terms, cfgMidnight, List.foldl_cons, List.foldl_nil, hexp]
      by_cases hwd : 1 = l.weekday
      · rw [if_pos hwd, if_pos hwd]
        rfl
      · rw [if_neg hwd, if_neg hwd]
    rw [hterms]
    by_cases hwd : 1 = l.weekday
    · rw [if_pos hwd, foldlM_option_cons]
      have hstep : stepTerm cfgMidnight l st ("C10", 86220, 3900) = some st := by
        rw [stepTerm]
        have : (dateGuardB cfgMidnight l && timeGuardB 86220 3900 l.time) = false := by
          rw [htg l.time, Bool.and_false]
        rw [this]
        simp
      rw [hstep, Option.some_bind, List.foldlM_nil]
      rfl
    · rw [if_neg hwd, List.foldlM_nil]
      rfl

/-- C10 witness: the modulo-24h widening law evaluated at the 00:02-01:00
interval with a 300-second spread. -/
theorem claim_C10_witness :
    ((300 : Nat) ≠ 0 ∧ (300 : Nat) ≤ 86400) ∧
    expandIfSpread 300 (120, 3600) =
      ((120 + 86400 - 300) % 86400, (3600 + 300) % 86400) :=
  ⟨⟨by decide, by decide⟩, claim_C10.1 120 3600 300 (by decide) (by decide)⟩

end AcsAttendance
